import Mathlib

/-!
A shallow embedding of the kontrol command-line front end
(`src/kontrol/__main__.py`, `src/kontrol/options.py`) together with a model
of the proof-graph editing engine it drives.  Python functions become Lean
functions; fallible Python code (exceptions) returns `Option` or `Except`;
Python `str` values manipulated character by character become `List Char`.
-/

set_option maxRecDepth 4000

namespace Kontrol

/-! ## Options (`src/kontrol/options.py`) -/

/-- The `ProveOptions` frozen dataclass: the fields as stored after
`__init__` has normalised its optional arguments.  `bug_report` and
`summary_entries` are opaque payloads here; they are stored untouched. -/
structure ProveOptions where
  auto_abstract_gas : Bool
  bug_report : Option String
  bmc_depth : Option Int
  max_depth : Int
  break_every_step : Bool
  break_on_jumpi : Bool
  break_on_calls : Bool
  break_on_storage : Bool
  break_on_basic_blocks : Bool
  break_on_cheatcodes : Bool
  workers : Int
  counterexample_info : Bool
  max_iterations : Option Int
  run_constructor : Bool
  fail_fast : Bool
  reinit : Bool
  use_gas : Bool
  failure_info : Bool
  summary_entries : Option (List String)
  fast_check_subsumption : Bool
  deriving Repr, DecidableEq

/-- Python `bool(x)` applied to an optional boolean: `bool(None) = False`,
`bool(b) = b`. -/
def pyBool (b : Option Bool) : Bool := b.getD false

/-- `ProveOptions.__init__`: every argument is keyword-only and defaults to
`None` (here: `Option.none`); booleans are either coerced with `bool()` or
defaulted to `True` via `True if x is None else x`. -/
def ProveOptions.make
    (auto_abstract_gas : Option Bool) (bug_report : Option String)
    (bmc_depth : Option Int) (max_depth : Int)
    (break_every_step : Option Bool) (break_on_jumpi : Option Bool)
    (break_on_calls : Option Bool) (break_on_storage : Option Bool)
    (break_on_basic_blocks : Option Bool) (break_on_cheatcodes : Option Bool)
    (workers : Int) (counterexample_info : Option Bool)
    (max_iterations : Option Int) (run_constructor : Option Bool)
    (fail_fast : Option Bool) (reinit : Option Bool) (use_gas : Option Bool)
    (failure_info : Option Bool) (summary_entries : Option (List String))
    (fast_check_subsumption : Option Bool) : ProveOptions where
  auto_abstract_gas := pyBool auto_abstract_gas
  bug_report := bug_report
  bmc_depth := bmc_depth
  max_depth := max_depth
  break_every_step := pyBool break_every_step
  break_on_jumpi := pyBool break_on_jumpi
  break_on_calls := pyBool break_on_calls
  break_on_storage := pyBool break_on_storage
  break_on_basic_blocks := pyBool break_on_basic_blocks
  break_on_cheatcodes := pyBool break_on_cheatcodes
  workers := workers
  counterexample_info := counterexample_info.getD true
  max_iterations := max_iterations
  run_constructor := pyBool run_constructor
  fail_fast := fail_fast.getD true
  reinit := pyBool reinit
  use_gas := pyBool use_gas
  failure_info := failure_info.getD true
  summary_entries := summary_entries
  fast_check_subsumption := fast_check_subsumption.getD true

/-- The `RPCOptions` frozen dataclass as stored after `__init__`. -/
structure RPCOptions where
  use_booster : Bool
  kore_rpc_command : List String
  smt_timeout : Option Int
  smt_retry_limit : Option Int
  smt_tactic : Option String
  trace_rewrites : Bool
  port : Option Int
  maude_port : Option Int
  deriving Repr, DecidableEq

/-- The possible shapes of the Python argument
`kore_rpc_command: str | Iterable[str] | None`. -/
inductive KoreRpcArg where
  | omitted
  | str (s : String)
  | iter (l : List String)
  deriving Repr, DecidableEq

/-- `RPCOptions.__init__`: when `kore_rpc_command` is `None` it is derived
from `use_booster` (itself defaulted to `True` when `None`); a `str` becomes
a one-element tuple; any other iterable becomes the tuple of its elements. -/
def RPCOptions.make
    (use_booster : Option Bool) (kore_rpc_command : KoreRpcArg)
    (smt_timeout : Option Int) (smt_retry_limit : Option Int)
    (smt_tactic : Option String) (trace_rewrites : Option Bool)
    (port : Option Int) (maude_port : Option Int) : RPCOptions where
  use_booster := use_booster.getD true
  kore_rpc_command :=
    match kore_rpc_command with
    | .omitted => if use_booster.getD true then ["kore-rpc-booster"] else ["kore-rpc"]
    | .str s => [s]
    | .iter l => l
  smt_timeout := smt_timeout
  smt_retry_limit := smt_retry_limit
  smt_tactic := smt_tactic
  trace_rewrites := pyBool trace_rewrites
  port := port
  maude_port := maude_port

/-! ## The `prove` command's result-reporting loop (`ProveCommand.exec`) -/

/-- One element of the list returned by `foundry_prove`, abstracted to the
attributes `ProveCommand.exec` reads: `proof.passed`, `proof.id`,
`proof.formatted_exec_time()`, and — for `APRProof`s whose `failure_info`
is an `APRFailureInfo` — the lines of `failure_info.print()`
(`failureLog = Option.none` models every proof for which the
`isinstance` tests fail). -/
structure ProofResult where
  passed : Bool
  id : String
  execTime : String
  failureLog : Option (List String)
  deriving Repr, DecidableEq

/-- The lines printed for one proof by the loop in `ProveCommand.exec`:
a PASSED/FAILED header, a time line (with a trailing `s` only in the
passed case, as in the source), and — only for failed proofs, only when
`self.failure_info` is set and a failure log exists — the failure log
followed by `Foundry.help_info()` (the latter an opaque parameter here). -/
def proofReportLines (failureInfoFlag : Bool) (helpInfo : List String)
    (r : ProofResult) : List String :=
  if r.passed then
    ["PROOF PASSED: " ++ r.id, "time: " ++ r.execTime ++ "s"]
  else
    ["PROOF FAILED: " ++ r.id, "time: " ++ r.execTime] ++
      (match r.failureLog with
       | some log => if failureInfoFlag then log ++ helpInfo else []
       | none => [])

/-- The `for proof in results` loop of `ProveCommand.exec`: returns the
printed lines and the final value of the `failed` counter, which the
source passes to `sys.exit`. -/
def proveExecLoop (failureInfoFlag : Bool) (helpInfo : List String) :
    List ProofResult → List String × Nat
  | [] => ([], 0)
  | r :: rs =>
    let rest := proveExecLoop failureInfoFlag helpInfo rs
    (proofReportLines failureInfoFlag helpInfo r ++ rest.1,
     (if r.passed then 0 else 1) + rest.2)

/-! ## `_parse_test_version_tuple` (`src/kontrol/__main__.py`)

Python strings are embedded as `List Char`. -/

/-- The characters Python `int(str)` strips from both ends of its argument
(the ASCII whitespace accepted by `str.strip()`). -/
def pyWhitespace (c : Char) : Bool :=
  c = ' ' || c = '\t' || c = '\n' || c = '\x0b' || c = '\x0c' || c = '\r'

/-- Strip leading and trailing Python whitespace. -/
def stripChars (l : List Char) : List Char :=
  ((l.dropWhile pyWhitespace).reverse.dropWhile pyWhitespace).reverse

/-- Numeric value of a decimal digit character. -/
def digitVal (c : Char) : Nat := c.toNat - 48

/-- Continue parsing a decimal literal after its first digit: each further
character is a digit, or a single underscore followed by a digit (CPython's
grouping rule for `int()`). -/
def pyDigitsAux : List Char → Nat → Option Nat
  | [], acc => some acc
  | '_' :: c :: rest, acc =>
    if c.isDigit then pyDigitsAux rest (acc * 10 + digitVal c) else Option.none
  | ['_'], _ => Option.none
  | c :: rest, acc =>
    if c.isDigit then pyDigitsAux rest (acc * 10 + digitVal c) else Option.none

/-- Parse a non-empty decimal digit run (with underscore grouping). -/
def pyDigits : List Char → Option Nat
  | [] => Option.none
  | c :: rest => if c.isDigit then pyDigitsAux rest (digitVal c) else Option.none

/-- Python `int(s)` on a string: strip whitespace, optional sign, then a
decimal literal; `Option.none` models the `ValueError` it raises otherwise. -/
def pyInt (l : List Char) : Option Int :=
  match stripChars l with
  | '+' :: rest => (pyDigits rest).map Int.ofNat
  | '-' :: rest => (pyDigits rest).map (fun n => -(n : Int))
  | rest => (pyDigits rest).map Int.ofNat

/-- Python `value.split(':')`: split at every colon, keeping empty parts. -/
def splitOnColon : List Char → List (List Char)
  | [] => [[]]
  | c :: rest =>
    let r := splitOnColon rest
    if c = ':' then [] :: r
    else
      match r with
      | [] => [[c]]
      | h :: t => (c :: h) :: t

/-- `_parse_test_version_tuple`: if the string contains a colon, split on
colons, require exactly two parts (the two-variable unpacking raises
otherwise), and parse the second as an `int`; else return the whole string
with no version.  `Option.none` models an uncaught exception. -/
def parse_test_version_tuple (value : List Char) :
    Option (List Char × Option Int) :=
  if ':' ∈ value then
    match splitOnColon value with
    | [test, version] => (pyInt version).map (fun n => (test, some n))
    | _ => Option.none
  else some (value, Option.none)

/-! ## The proof graph and its editing operations

The graph-editing functions called by `__main__.py`
(`foundry_split_node`, `foundry_section_edge`, `foundry_remove_node`,
`foundry_refute_node`, `foundry_unrefute_node` in `kontrol/foundry.py`)
are not part of the sources at hand; the definitions below are modelled
from the spec's data model and operation descriptions. -/

/-- Error taxonomy of the spec relevant to graph edits: unknown
test/node/edge versus a rejected operation. -/
inductive CmdErr where
  | notFound
  | invalidOperation
  deriving Repr, DecidableEq

/-- Modelled from the spec: a graph node — unique id plus an opaque
symbolic configuration. -/
structure Node where
  id : Nat
  payload : String
  deriving Repr, DecidableEq

/-- Modelled from the spec: a directed edge carrying a step count and an
ordered sequence of intermediate constraints. -/
structure Edge where
  source : Nat
  target : Nat
  depth : Nat
  rules : List String
  deriving Repr, DecidableEq

/-- Modelled from the spec: a branch condition attached to a split target —
either the literal condition string or its negation. -/
inductive BranchCondition where
  | lit (s : String)
  | negated (s : String)
  deriving Repr, DecidableEq

/-- Modelled from the spec: a split — a source node plus an ordered list of
`(target node, branch condition)` pairs. -/
structure Split where
  source : Nat
  targets : List (Nat × BranchCondition)
  deriving Repr, DecidableEq

/-- Modelled from the spec: a cover — the source node's state is subsumed
by the target's. -/
structure Cover where
  source : Nat
  target : Nat
  deriving Repr, DecidableEq

/-- Modelled from the spec: one proof's reachability graph, rooted at the
initial node, with a monotonic never-reused id supply. -/
structure Graph where
  root : Nat
  nodes : List Node
  edges : List Edge
  splits : List Split
  covers : List Cover
  nextId : Nat
  deriving Repr, DecidableEq

/-- The ids of the graph's nodes. -/
def Graph.nodeIds (g : Graph) : List Nat := g.nodes.map Node.id

/-- Whether a node id exists in the graph. -/
def Graph.hasNode (g : Graph) (x : Nat) : Bool := g.nodes.any (fun n => n.id == x)

/-- Whether a node has any outgoing structure (edge, split or cover). -/
def Graph.hasOutgoing (g : Graph) (x : Nat) : Bool :=
  g.edges.any (fun e => e.source == x) ||
  g.splits.any (fun sp => sp.source == x) ||
  g.covers.any (fun c => c.source == x)

/-- The edges incident to a node (as source or target). -/
def Graph.incidentEdges (g : Graph) (x : Nat) : List Edge :=
  g.edges.filter (fun e => e.source == x || e.target == x)

/-- Direct successors of a node: targets of its edges, splits and covers. -/
def Graph.succsOf (g : Graph) (x : Nat) : List Nat :=
  ((g.edges.filter (fun e => e.source == x)).map Edge.target) ++
  ((g.splits.filter (fun sp => sp.source == x)).flatMap (fun sp => sp.targets.map Prod.fst)) ++
  ((g.covers.filter (fun c => c.source == x)).map Cover.target)

/-- Saturate a set of node ids under direct successors, with explicit
fuel; stops as soon as a pass adds no new id. -/
def Graph.reachAux (g : Graph) : Nat → List Nat → List Nat
  | 0, acc => acc
  | fuel + 1, acc =>
    let next := ((acc.flatMap g.succsOf).filter (fun y => !acc.contains y)).dedup
    if next.isEmpty then acc else g.reachAux fuel (acc ++ next)

/-- The node together with its reachable successor subgraph;
`g.nodes.length` rounds of expansion suffice on a well-formed graph. -/
def Graph.reachableFrom (g : Graph) (x : Nat) : List Nat :=
  g.reachAux g.nodes.length [x]

/-- A list of ids closed under taking direct successors. -/
def Graph.SuccClosed (g : Graph) (l : List Nat) : Prop :=
  ∀ z ∈ l, ∀ y ∈ g.succsOf z, y ∈ l

/-- Well-formedness invariants from the spec: node ids are unique and every
edge, split and cover endpoint exists in the graph. -/
def Graph.WF (g : Graph) : Prop :=
  g.nodeIds.Nodup ∧
  (∀ e ∈ g.edges, e.source ∈ g.nodeIds ∧ e.target ∈ g.nodeIds) ∧
  (∀ sp ∈ g.splits, sp.source ∈ g.nodeIds ∧ ∀ t ∈ sp.targets, t.1 ∈ g.nodeIds) ∧
  (∀ c ∈ g.covers, c.source ∈ g.nodeIds ∧ c.target ∈ g.nodeIds)

instance (g : Graph) : Decidable g.WF := by
  unfold Graph.WF; infer_instance

/-- The opaque configuration of a node, looked up by id. -/
def Graph.nodePayload (g : Graph) (x : Nat) : String :=
  ((g.nodes.find? (fun n => n.id == x)).map Node.payload).getD ""

/-- Modelled from the spec: `foundry_split_node` — on a cover-free node
with no outgoing structure, create two clones of the node carrying the
literal branch condition and its negation, record the split, and return
the two fresh ids with the condition-true node first; reject a node that
already has outgoing structure with `InvalidOperation`. -/
def Graph.splitNode (g : Graph) (x : Nat) (cond : String) :
    Except CmdErr (Graph × Nat × Nat) :=
  if ¬ g.hasNode x then .error .notFound
  else if g.hasOutgoing x then .error .invalidOperation
  else
    let a := g.nextId
    let b := g.nextId + 1
    .ok ({ g with
            nodes := g.nodes ++ [⟨a, g.nodePayload x⟩, ⟨b, g.nodePayload x⟩],
            splits := g.splits ++ [⟨x, [(a, .lit cond), (b, .negated cond)]⟩],
            nextId := g.nextId + 2 }, a, b)

/-- The step counts of the `k` sections of an edge of step count `d`:
section `i` runs from step `d*i/k` to step `d*(i+1)/k`, so the counts are
as even as integer division allows and telescope to `d`. -/
def sectionDepths (d k : Nat) : List Nat :=
  (List.range k).map (fun i => d * (i + 1) / k - d * i / k)

/-- The chain of `k` edges replacing a sectioned edge from `s` to `t`:
`k - 1` fresh intermediate nodes `nid, nid+1, ...` carry the chain. -/
def chainEdges (s t nid d k : Nat) (rules : List String) : List Edge :=
  (List.range k).map (fun i =>
    { source := if i = 0 then s else nid + (i - 1)
      target := if i = k - 1 then t else nid + i
      depth := d * (i + 1) / k - d * i / k
      rules := rules })

/-- Modelled from the spec: `foundry_section_edge` — replace one existing
edge by a chain of `sections` edges through fresh intermediate nodes whose
step counts sum to the original; reject `sections < 2`
(`InvalidOperation`) and a missing edge (`NotFound`) without mutation. -/
def Graph.sectionEdge (g : Graph) (s t sections : Nat) : Except CmdErr Graph :=
  if sections < 2 then .error .invalidOperation
  else
    match g.edges.find? (fun e => e.source == s && e.target == t) with
    | Option.none => .error .notFound
    | some e =>
      let mids := (List.range (sections - 1)).map
        (fun i => Node.mk (g.nextId + i) (g.nodePayload s))
      .ok { g with
             nodes := g.nodes ++ mids,
             edges := g.edges.erase e ++ chainEdges s t g.nextId e.depth sections e.rules,
             nextId := g.nextId + (sections - 1) }

/-- Modelled from the spec: `foundry_remove_node` — delete a node and its
entire reachable successor subgraph, dropping every edge, split and cover
that touches a deleted node; refuse to remove the proof's initial node. -/
def Graph.removeNode (g : Graph) (x : Nat) : Except CmdErr Graph :=
  if ¬ g.hasNode x then .error .notFound
  else if x = g.root then .error .invalidOperation
  else
    let r := g.reachableFrom x
    .ok { g with
           nodes := g.nodes.filter (fun n => !r.contains n.id),
           edges := g.edges.filter (fun e => !r.contains e.source && !r.contains e.target),
           splits := g.splits.filter (fun sp =>
             !r.contains sp.source && sp.targets.all (fun t => !r.contains t.1)),
           covers := g.covers.filter (fun c => !r.contains c.source && !r.contains c.target) }

/-! ## Refutations -/

/-- Modelled from the spec: a proof owning its graph and its node-keyed
refutation subproofs (node id paired with the subproof id handed out for
it), plus a supply of fresh subproof ids. -/
structure Proof where
  graph : Graph
  refutations : List (Nat × Nat)
  nextRefId : Nat
  deriving Repr, DecidableEq

/-- Whether a node is currently refuted. -/
def Proof.isRefuted (p : Proof) (x : Nat) : Bool :=
  (p.refutations.lookup x).isSome

/-- Modelled from the spec: `foundry_refute_node` — record a refutation
subproof against the node, excluding it from further stepping; refuting an
already-refuted node is a no-op returning the existing subproof id. -/
def Proof.refuteNode (p : Proof) (x : Nat) : Except CmdErr (Proof × Nat) :=
  if ¬ p.graph.hasNode x then .error .notFound
  else
    match p.refutations.lookup x with
    | some sid => .ok (p, sid)
    | Option.none =>
      .ok ({ p with
              refutations := (x, p.nextRefId) :: p.refutations,
              nextRefId := p.nextRefId + 1 }, p.nextRefId)

/-- Modelled from the spec: `foundry_unrefute_node` — delete the node's
refutation subproof, returning the node to frontier status; unrefuting a
non-refuted node is a no-op. -/
def Proof.unrefuteNode (p : Proof) (x : Nat) : Except CmdErr Proof :=
  if ¬ p.graph.hasNode x then .error .notFound
  else if (p.refutations.lookup x).isNone then .ok p
  else .ok { p with refutations := p.refutations.filter (fun r => r.1 ≠ x) }

/-! ## Statements of the claimed properties -/

/-- The defaulting behaviour of `ProveOptions.__init__`, field by field. -/
def ProveOptionsDefaultsSpec
    (auto_abstract_gas : Option Bool) (bug_report : Option String)
    (bmc_depth : Option Int) (max_depth : Int)
    (break_every_step break_on_jumpi break_on_calls break_on_storage
      break_on_basic_blocks break_on_cheatcodes : Option Bool)
    (workers : Int) (counterexample_info : Option Bool)
    (max_iterations : Option Int)
    (run_constructor fail_fast reinit use_gas failure_info : Option Bool)
    (summary_entries : Option (List String))
    (fast_check_subsumption : Option Bool) : Prop :=
  let o := ProveOptions.make auto_abstract_gas bug_report bmc_depth max_depth
    break_every_step break_on_jumpi break_on_calls break_on_storage
    break_on_basic_blocks break_on_cheatcodes workers counterexample_info
    max_iterations run_constructor fail_fast reinit use_gas failure_info
    summary_entries fast_check_subsumption
  o.fail_fast = fail_fast.getD true ∧
  o.counterexample_info = counterexample_info.getD true ∧
  o.failure_info = failure_info.getD true ∧
  o.fast_check_subsumption = fast_check_subsumption.getD true ∧
  o.auto_abstract_gas = pyBool auto_abstract_gas ∧
  o.break_every_step = pyBool break_every_step ∧
  o.break_on_jumpi = pyBool break_on_jumpi ∧
  o.break_on_calls = pyBool break_on_calls ∧
  o.break_on_storage = pyBool break_on_storage ∧
  o.break_on_basic_blocks = pyBool break_on_basic_blocks ∧
  o.break_on_cheatcodes = pyBool break_on_cheatcodes ∧
  o.run_constructor = pyBool run_constructor ∧
  o.reinit = pyBool reinit ∧
  o.use_gas = pyBool use_gas ∧
  (fail_fast = Option.none → o.fail_fast = true) ∧
  (counterexample_info = Option.none → o.counterexample_info = true) ∧
  (failure_info = Option.none → o.failure_info = true) ∧
  (fast_check_subsumption = Option.none → o.fast_check_subsumption = true) ∧
  (auto_abstract_gas = Option.none → o.auto_abstract_gas = false) ∧
  (break_every_step = Option.none → o.break_every_step = false) ∧
  (break_on_jumpi = Option.none → o.break_on_jumpi = false) ∧
  (break_on_calls = Option.none → o.break_on_calls = false) ∧
  (break_on_storage = Option.none → o.break_on_storage = false) ∧
  (break_on_basic_blocks = Option.none → o.break_on_basic_blocks = false) ∧
  (break_on_cheatcodes = Option.none → o.break_on_cheatcodes = false) ∧
  (run_constructor = Option.none → o.run_constructor = false) ∧
  (reinit = Option.none → o.reinit = false) ∧
  (use_gas = Option.none → o.use_gas = false)

/-- How `RPCOptions.__init__` computes `kore_rpc_command`, including the
case split on the shape of the argument, and its non-emptiness for every
argument other than an empty iterable. -/
def RpcKoreCommandSpec (use_booster : Option Bool) (arg : KoreRpcArg)
    (smt_timeout smt_retry_limit : Option Int) (smt_tactic : Option String)
    (trace_rewrites : Option Bool) (port maude_port : Option Int) : Prop :=
  let o := RPCOptions.make use_booster arg smt_timeout smt_retry_limit
    smt_tactic trace_rewrites port maude_port
  (arg = .omitted → (use_booster = Option.none ∨ use_booster = some true) →
    o.kore_rpc_command = ["kore-rpc-booster"]) ∧
  (arg = .omitted → use_booster = some false →
    o.kore_rpc_command = ["kore-rpc"]) ∧
  (∀ s, arg = .str s → o.kore_rpc_command = [s]) ∧
  (∀ l, arg = .iter l → o.kore_rpc_command = l) ∧
  (arg ≠ .iter [] → o.kore_rpc_command ≠ [])

/-- The behaviour of split on an existing node: on a frontier it creates
exactly two clone nodes whose branch conditions are the literal condition
and its negation, returns the two fresh ids condition-true first, and any
further split of the same node is rejected; on a node with outgoing
structure it is rejected with `InvalidOperation`. -/
def SplitNodeSpec (g : Graph) (x : Nat) (cond : String) : Prop :=
  (g.hasOutgoing x = false →
    ∃ g', g.splitNode x cond = .ok (g', g.nextId, g.nextId + 1) ∧
      g.nextId ≠ g.nextId + 1 ∧
      g'.nodes = g.nodes ++
        [⟨g.nextId, g.nodePayload x⟩, ⟨g.nextId + 1, g.nodePayload x⟩] ∧
      g'.splits = g.splits ++
        [⟨x, [(g.nextId, .lit cond), (g.nextId + 1, .negated cond)]⟩] ∧
      g'.hasNode g.nextId = true ∧ g'.hasNode (g.nextId + 1) = true ∧
      (∀ cond2, g'.splitNode x cond2 = .error .invalidOperation)) ∧
  (g.hasOutgoing x = true → g.splitNode x cond = .error .invalidOperation)

/-- The behaviour of section-edge: `sections < 2` is rejected, a missing
edge is rejected, and an existing edge is replaced by exactly `sections`
edges whose step counts sum to the step count of the removed edge. -/
def SectionEdgeSpec (g : Graph) (s t k : Nat) : Prop :=
  (k < 2 → g.sectionEdge s t k = .error .invalidOperation) ∧
  (¬ k < 2 →
    g.edges.find? (fun e => e.source == s && e.target == t) = Option.none →
    g.sectionEdge s t k = .error .notFound) ∧
  (∀ e, ¬ k < 2 →
    g.edges.find? (fun e => e.source == s && e.target == t) = some e →
    e ∈ g.edges ∧
    ∃ g', g.sectionEdge s t k = .ok g' ∧
      g'.edges = g.edges.erase e ++ chainEdges s t g.nextId e.depth k e.rules ∧
      (chainEdges s t g.nextId e.depth k e.rules).length = k ∧
      ((chainEdges s t g.nextId e.depth k e.rules).map Edge.depth).sum
        = e.depth ∧
      g'.edges.length + 1 = g.edges.length + k)

/-- The successful outcome of remove-node on a non-root node: the deleted
ids are exactly the least successor-closed set containing the node (the
node itself, its reachable successor subgraph, and nothing else), every
untouched node survives, and no orphaned edge remains. -/
def RemoveNodeOk (g : Graph) (x : Nat) : Prop :=
  ∃ g', g.removeNode x = .ok g' ∧
    x ∈ g.reachableFrom x ∧
    g.SuccClosed (g.reachableFrom x) ∧
    (∀ s : List Nat, x ∈ s → g.SuccClosed s →
      ∀ y ∈ g.reachableFrom x, y ∈ s) ∧
    g'.nodes = g.nodes.filter (fun n => !(g.reachableFrom x).contains n.id) ∧
    (∀ n ∈ g.nodes, n.id ∉ g.reachableFrom x → n ∈ g'.nodes) ∧
    (∀ e ∈ g'.edges, e.source ∈ g'.nodeIds ∧ e.target ∈ g'.nodeIds) ∧
    g'.root = g.root ∧ g'.nextId = g.nextId

/-- Idempotence of refute and unrefute on an existing node. -/
def RefuteIdempotentSpec (p : Proof) (x : Nat) : Prop :=
  (∀ sid, p.refutations.lookup x = some sid → p.refuteNode x = .ok (p, sid)) ∧
  (p.refutations.lookup x = Option.none → p.unrefuteNode x = .ok p)

/-- Refute followed by unrefute restores the node's pre-refute frontier
status: same graph, same refutations, same node, same incident edges. -/
def RefuteUnrefuteSpec (p : Proof) (x : Nat) : Prop :=
  ∃ p1 sid, p.refuteNode x = .ok (p1, sid) ∧ p1.isRefuted x = true ∧
    p1.graph = p.graph ∧
    ∃ p2, p1.unrefuteNode x = .ok p2 ∧
      p2.graph = p.graph ∧ p2.refutations = p.refutations ∧
      p2.isRefuted x = false ∧ p2.graph.hasNode x = true ∧
      p2.graph.hasOutgoing x = false ∧
      p2.graph.incidentEdges x = p.graph.incidentEdges x

/-- Example graph used to witness the graph-editing theorems:
three nodes in a chain rooted at 1. -/
def egGraph : Graph where
  root := 1
  nodes := [⟨1, "cfgA"⟩, ⟨2, "cfgB"⟩, ⟨3, "cfgC"⟩]
  edges := [⟨1, 2, 5, ["ruleA"]⟩, ⟨2, 3, 4, ["ruleB"]⟩]
  splits := []
  covers := []
  nextId := 4

/-- Example proof used to witness the refutation theorems. -/
def egProof : Proof where
  graph := egGraph
  refutations := [(2, 0)]
  nextRefId := 1

/-- The reporting and exit-code behaviour of the `ProveCommand.exec`
result loop: the exit code counts the non-passed proofs and is zero
exactly when all passed; the output is the concatenation of the per-proof
blocks; each proof gets its pass/fail line and its time line. -/
def ProveReportSpec (fi : Bool) (help : List String)
    (rs : List ProofResult) : Prop :=
  (proveExecLoop fi help rs).2 = (rs.filter (fun r => !r.passed)).length ∧
  ((proveExecLoop fi help rs).2 = 0 ↔ ∀ r ∈ rs, r.passed = true) ∧
  (proveExecLoop fi help rs).1 = rs.flatMap (proofReportLines fi help) ∧
  (∀ r ∈ rs,
    ((if r.passed then "PROOF PASSED: " else "PROOF FAILED: ") ++ r.id)
      ∈ (proveExecLoop fi help rs).1 ∧
    (if r.passed then "time: " ++ r.execTime ++ "s"
     else "time: " ++ r.execTime) ∈ (proveExecLoop fi help rs).1)

/-- The failure-detail behaviour of `ProveCommand.exec` for one non-passed
proof: its block appears in the output, and consists of the failure line
and the time line, followed by the structured failure detail exactly when
`failure_info` was requested and a failure log is available. -/
def FailureReportSpec (fi : Bool) (help : List String)
    (rs : List ProofResult) (r : ProofResult) : Prop :=
  ∃ pre post,
    (proveExecLoop fi help rs).1 = pre ++ proofReportLines fi help r ++ post ∧
    proofReportLines fi help r =
      ["PROOF FAILED: " ++ r.id, "time: " ++ r.execTime] ++
        (if fi = true ∧ r.failureLog.isSome = true
         then r.failureLog.getD [] ++ help else [])

/-- The behaviour of `_parse_test_version_tuple` by colon count: no colon
returns the string with no version; exactly one colon returns the parts
around it with the suffix read as an `int` (when that read is defined);
two or more colons make the two-variable unpacking raise. -/
def ParseTestVersionSpec (s : List Char) : Prop :=
  (s.count ':' = 0 → parse_test_version_tuple s = some (s, Option.none)) ∧
  (∀ pre suf, s = pre ++ ':' :: suf → ':' ∉ pre → ':' ∉ suf →
    ∀ n, pyInt suf = some n →
      parse_test_version_tuple s = some (pre, some n)) ∧
  (2 ≤ s.count ':' → parse_test_version_tuple s = Option.none)

/-- Example failed proof result used by the witnesses. -/
def egFailed : ProofResult where
  passed := false
  id := "T.bad"
  execTime := "2.0"
  failureLog := some ["model line"]

/-- Example result list used by the witnesses. -/
def egResults : List ProofResult :=
  [⟨true, "T.ok", "1.0", Option.none⟩, egFailed]

/-! ## Theorems -/

/-- C10: in `ProveOptions.__init__`, `fail_fast`, `counterexample_info`,
`failure_info` and `fast_check_subsumption` default to `True` when `None`
(or omitted), every other optional boolean is coerced with `bool()` and so
defaults to `False`; being a Lean structure, the constructed value is
immutable, matching the frozen dataclass. -/
theorem prove_options_defaults
    (auto_abstract_gas : Option Bool) (bug_report : Option String)
    (bmc_depth : Option Int) (max_depth : Int)
    (break_every_step break_on_jumpi break_on_calls break_on_storage
      break_on_basic_blocks break_on_cheatcodes : Option Bool)
    (workers : Int) (counterexample_info : Option Bool)
    (max_iterations : Option Int)
    (run_constructor fail_fast reinit use_gas failure_info : Option Bool)
    (summary_entries : Option (List String))
    (fast_check_subsumption : Option Bool) :
    ProveOptionsDefaultsSpec auto_abstract_gas bug_report bmc_depth max_depth
      break_every_step break_on_jumpi break_on_calls break_on_storage
      break_on_basic_blocks break_on_cheatcodes workers counterexample_info
      max_iterations run_constructor fail_fast reinit use_gas failure_info
      summary_entries fast_check_subsumption := by
  refine ⟨rfl, rfl, rfl, rfl, rfl, rfl, rfl, rfl, rfl, rfl, rfl, rfl, rfl, rfl,
    ?_, ?_, ?_, ?_, ?_, ?_, ?_, ?_, ?_, ?_, ?_, ?_, ?_, ?_⟩ <;>
    (rintro rfl; rfl)

/-- C10 witness: all arguments omitted. -/
theorem prove_options_defaults_witness :
    ProveOptionsDefaultsSpec Option.none Option.none Option.none 1000
      Option.none Option.none Option.none Option.none Option.none Option.none
      1 Option.none Option.none Option.none Option.none Option.none
      Option.none Option.none Option.none Option.none :=
  prove_options_defaults Option.none Option.none Option.none 1000
    Option.none Option.none Option.none Option.none Option.none Option.none
    1 Option.none Option.none Option.none Option.none Option.none
    Option.none Option.none Option.none Option.none

/-- C9 counterexample: constructing `RPCOptions` with an empty iterable as
`kore_rpc_command` yields the empty tuple, so `kore_rpc_command` is not
always a non-empty tuple of strings. -/
theorem rpc_empty_iter_counterexample :
    (RPCOptions.make Option.none (KoreRpcArg.iter []) Option.none Option.none
      Option.none Option.none Option.none Option.none).kore_rpc_command = [] :=
  rfl

/-- C9 (amended): the `kore_rpc_command` defaulting of
`RPCOptions.__init__` — booster command when omitted with `use_booster`
absent or true, plain command when `use_booster` is false, a singleton for
a string argument, the elements for an iterable argument — and the result
is non-empty except for an empty iterable argument. -/
theorem rpc_kore_command_spec (use_booster : Option Bool) (arg : KoreRpcArg)
    (smt_timeout smt_retry_limit : Option Int) (smt_tactic : Option String)
    (trace_rewrites : Option Bool) (port maude_port : Option Int) :
    RpcKoreCommandSpec use_booster arg smt_timeout smt_retry_limit smt_tactic
      trace_rewrites port maude_port := by
  dsimp only [RpcKoreCommandSpec]
  refine ⟨?_, ?_, ?_, ?_, ?_⟩
  · rintro rfl (rfl | rfl) <;> rfl
  · rintro rfl rfl; rfl
  · rintro s rfl; rfl
  · rintro l rfl; rfl
  · intro hne
    cases arg with
    | omitted =>
      cases hb : use_booster.getD true <;>
        simp [RPCOptions.make, hb]
    | str s => simp [RPCOptions.make]
    | iter l =>
      cases l with
      | nil => exact absurd rfl hne
      | cons a as => simp [RPCOptions.make]

/-- C9 witness: a concrete non-empty iterable argument. -/
theorem rpc_kore_command_spec_witness :
    RpcKoreCommandSpec (some false) (KoreRpcArg.iter ["cmd", "arg"])
      Option.none Option.none Option.none Option.none Option.none
      Option.none :=
  rpc_kore_command_spec (some false) (KoreRpcArg.iter ["cmd", "arg"])
    Option.none Option.none Option.none Option.none Option.none Option.none

/-- A key that `lookup` does not find heads no pair of the list. -/
theorem lookup_none_keys (x : Nat) :
    ∀ l : List (Nat × Nat), l.lookup x = Option.none →
      ∀ a b, (a, b) ∈ l → a ≠ x
  | [], _, a, b, hmem => absurd hmem (List.not_mem_nil _)
  | (k, v) :: rest, h, a, b, hmem => by
    have hk : (x == k) = false := by
      cases hxk : x == k with
      | false => rfl
      | true => simp [List.lookup, hxk] at h
    have hrest : rest.lookup x = Option.none := by
      simpa [List.lookup, hk] using h
    rcases List.mem_cons.mp hmem with heq | hmem2
    · cases heq
      intro he
      subst he
      simp at hk
    · exact lookup_none_keys x rest hrest a b hmem2

/-- Filtering out a key absent from an association list changes nothing. -/
theorem filter_ne_of_lookup_none (x : Nat) (l : List (Nat × Nat))
    (h : l.lookup x = Option.none) : l.filter (fun r => r.1 ≠ x) = l := by
  rw [List.filter_eq_self]
  intro r hr
  have hne := lookup_none_keys x l h r.1 r.2 (by simpa using hr)
  simpa using hne

/-- C6: refuting an already-refuted node is a no-op returning the existing
subproof id, and unrefuting a non-refuted node is a no-op. -/
theorem refute_unrefute_idempotent (p : Proof) (x : Nat)
    (hx : p.graph.hasNode x = true) : RefuteIdempotentSpec p x := by
  constructor
  · intro sid hsid
    simp [Proof.refuteNode, hx, hsid]
  · intro hnone
    simp [Proof.unrefuteNode, hx, hnone]

/-- C6 witness: node 2 of the example proof is refuted, node 3 is not. -/
theorem refute_unrefute_idempotent_witness :
    egProof.refuteNode 2 = .ok (egProof, 0) ∧
    egProof.unrefuteNode 3 = .ok egProof :=
  ⟨(refute_unrefute_idempotent egProof 2 (by decide)).1 0 (by decide),
   (refute_unrefute_idempotent egProof 3 (by decide)).2 (by decide)⟩

/-- C5: refuting and then unrefuting a frontier node restores its
pre-refute frontier status, with the graph — hence the node id and its
incident edges — unchanged. -/
theorem refute_then_unrefute (p : Proof) (x : Nat)
    (hx : p.graph.hasNode x = true)
    (hfr : p.graph.hasOutgoing x = false)
    (hnr : p.isRefuted x = false) : RefuteUnrefuteSpec p x := by
  have hnone : p.refutations.lookup x = Option.none := by
    have := hnr
    unfold Proof.isRefuted at this
    exact Option.not_isSome_iff_eq_none.mp (by simp [this])
  refine ⟨⟨p.graph, (x, p.nextRefId) :: p.refutations, p.nextRefId + 1⟩,
    p.nextRefId, ?_, ?_, rfl, ?_⟩
  · simp [Proof.refuteNode, hx, hnone]
  · simp [Proof.isRefuted, List.lookup]
  · refine ⟨⟨p.graph, p.refutations, p.nextRefId + 1⟩, ?_, rfl, rfl, ?_, hx,
      hfr, rfl⟩
    · have hkeys : ∀ a b : Nat, (a, b) ∈ p.refutations → ¬a = x :=
        fun a b hmem => lookup_none_keys x p.refutations hnone a b hmem
      simp only [Proof.unrefuteNode, hx, List.lookup]
      simp
      exact hkeys
    · simpa [Proof.isRefuted] using congrArg Option.isSome hnone

/-- C5 witness: node 3 of the example proof is an unrefuted frontier. -/
theorem refute_then_unrefute_witness : RefuteUnrefuteSpec egProof 3 :=
  refute_then_unrefute egProof 3 (by decide) (by decide) (by decide)

/-- The printed lines of the loop are the per-proof blocks in order. -/
theorem proveExecLoop_fst (fi : Bool) (help : List String) :
    ∀ rs, (proveExecLoop fi help rs).1 = rs.flatMap (proofReportLines fi help)
  | [] => rfl
  | r :: rs => by
    simp [proveExecLoop, proveExecLoop_fst fi help rs]

/-- The loop's counter is the number of non-passed results. -/
theorem proveExecLoop_snd (fi : Bool) (help : List String) :
    ∀ rs, (proveExecLoop fi help rs).2 =
      (rs.filter (fun r => !r.passed)).length
  | [] => rfl
  | r :: rs => by
    have ih := proveExecLoop_snd fi help rs
    cases hp : r.passed <;>
      simp [proveExecLoop, hp, ih, List.filter_cons, Nat.add_comm]

/-- C1: the `prove` entry point exits with status equal to the number of
non-passed proofs (zero exactly when every proof passed) and prints a
pass/fail line with elapsed time for every result. -/
theorem prove_exit_and_report (fi : Bool) (help : List String)
    (rs : List ProofResult) : ProveReportSpec fi help rs := by
  refine ⟨proveExecLoop_snd fi help rs, ?_, proveExecLoop_fst fi help rs, ?_⟩
  · rw [proveExecLoop_snd fi help rs]
    constructor
    · intro h r hr
      have hnil : rs.filter (fun r => !r.passed) = [] :=
        List.length_eq_zero.mp h
      cases hp : r.passed with
      | true => rfl
      | false =>
        have : r ∈ rs.filter (fun r => !r.passed) :=
          List.mem_filter.mpr ⟨hr, by simp [hp]⟩
        rw [hnil] at this
        exact absurd this (List.not_mem_nil r)
    · intro h
      rw [List.length_eq_zero, List.filter_eq_nil_iff]
      intro r hr
      simp [h r hr]
  · intro r hr
    refine ⟨?_, ?_⟩ <;>
      rw [proveExecLoop_fst] <;>
      refine List.mem_flatMap.mpr ⟨r, hr, ?_⟩ <;>
      cases hp : r.passed <;>
      simp [proofReportLines, hp]

/-- C1 witness: one passed and one failed result. -/
theorem prove_exit_and_report_witness :
    ProveReportSpec true ["join the chat"] egResults :=
  prove_exit_and_report true ["join the chat"] egResults

/-- C7: every non-passed proof is listed individually with its elapsed
time, and the structured failure detail is appended exactly when the
`failure_info` option is set and a failure log is available. -/
theorem failed_proof_report (fi : Bool) (help : List String)
    (rs : List ProofResult) (r : ProofResult) (hr : r ∈ rs)
    (hf : r.passed = false) : FailureReportSpec fi help rs r := by
  obtain ⟨s1, s2, rfl⟩ := List.append_of_mem hr
  refine ⟨s1.flatMap (proofReportLines fi help),
    s2.flatMap (proofReportLines fi help), ?_, ?_⟩
  · rw [proveExecLoop_fst]
    simp
  · cases hl : r.failureLog with
    | none => cases fi <;> simp [proofReportLines, hf, hl]
    | some log => cases fi <;> simp [proofReportLines, hf, hl]

/-- C7 witness: the failed example result inside the example list, with
failure detail requested and a log available. -/
theorem failed_proof_report_witness :
    FailureReportSpec true ["join the chat"] egResults egFailed :=
  failed_proof_report true ["join the chat"] egResults egFailed
    (by decide) (by decide)

/-- Splitting a colon-free string yields the string itself. -/
theorem splitOnColon_of_not_mem : ∀ l : List Char, ':' ∉ l →
    splitOnColon l = [l]
  | [], _ => rfl
  | c :: rest, h => by
    have hc : ¬ c = ':' := fun he => h (he ▸ List.mem_cons_self c rest)
    have hrest : ':' ∉ rest := fun hm => h (List.mem_cons_of_mem c hm)
    simp [splitOnColon, hc, splitOnColon_of_not_mem rest hrest]

/-- The number of parts is one more than the number of colons. -/
theorem splitOnColon_length : ∀ l : List Char,
    (splitOnColon l).length = l.count ':' + 1
  | [] => rfl
  | c :: rest => by
    have ih := splitOnColon_length rest
    by_cases hc : c = ':'
    · subst hc
      simp [splitOnColon, ih, List.count_cons]
    · cases hr : splitOnColon rest with
      | nil => rw [hr] at ih; simp at ih
      | cons hd tl =>
        rw [hr] at ih
        simp only [List.length_cons] at ih
        simp [splitOnColon, hc, hr, List.count_cons, ih]

/-- Splitting around the first colon. -/
theorem splitOnColon_append (suf : List Char) : ∀ pre : List Char,
    ':' ∉ pre → splitOnColon (pre ++ ':' :: suf) = pre :: splitOnColon suf
  | [], _ => by simp [splitOnColon]
  | c :: pre, h => by
    have hc : ¬ c = ':' := fun he => h (he ▸ List.mem_cons_self c pre)
    have hpre : ':' ∉ pre := fun hm => h (List.mem_cons_of_mem c hm)
    simp [splitOnColon, hc, splitOnColon_append suf pre hpre]

/-- C8: `_parse_test_version_tuple` returns `(s, None)` for a colon-free
string, splits a one-colon string into `(prefix, int(suffix))`, and raises
(models as `Option.none`) for a string with two or more colons. -/
theorem parse_test_version_tuple_spec (s : List Char) :
    ParseTestVersionSpec s := by
  refine ⟨?_, ?_, ?_⟩
  · intro h0
    have hnm : ':' ∉ s := List.count_eq_zero.mp h0
    simp [parse_test_version_tuple, hnm]
  · rintro pre suf rfl hpre hsuf n hint
    have hmem : ':' ∈ pre ++ ':' :: suf :=
      List.mem_append.mpr (Or.inr (List.mem_cons_self _ _))
    simp [parse_test_version_tuple, hmem, splitOnColon_append suf pre hpre,
      splitOnColon_of_not_mem suf hsuf, hint]
  · intro h2
    have hmem : ':' ∈ s := by
      have hpos : 0 < s.count ':' := by omega
      exact List.count_pos_iff.mp hpos
    have hlen : 3 ≤ (splitOnColon s).length := by
      rw [splitOnColon_length]
      omega
    cases hsp : splitOnColon s with
    | nil => rw [hsp] at hlen; simp at hlen
    | cons a t =>
      cases t with
      | nil => rw [hsp] at hlen; simp at hlen
      | cons b t2 =>
        cases t2 with
        | nil => rw [hsp] at hlen; simp at hlen
        | cons d t3 => simp [parse_test_version_tuple, hmem, hsp]

/-- C8 witness: a colon-free input, a one-colon input with a numeric
suffix, and a two-colon input. -/
theorem parse_test_version_tuple_spec_witness :
    parse_test_version_tuple ['a', 'b'] = some (['a', 'b'], Option.none) ∧
    parse_test_version_tuple ['a', ':', '4', '2'] = some (['a'], some 42) ∧
    parse_test_version_tuple ['a', ':', 'b', ':', 'c'] = Option.none :=
  ⟨(parse_test_version_tuple_spec ['a', 'b']).1 (by decide),
   (parse_test_version_tuple_spec ['a', ':', '4', '2']).2.1 ['a'] ['4', '2']
     (by decide) (by decide) (by decide) 42 (by decide),
   (parse_test_version_tuple_spec ['a', ':', 'b', ':', 'c']).2.2 (by decide)⟩

/-- `any` holds on an append when it holds on the left part. -/
theorem any_append_left {α : Type} (l1 l2 : List α) (p : α → Bool)
    (h : l1.any p = true) : (l1 ++ l2).any p = true := by
  rw [List.any_append, h]
  simp

/-- `any` holds on an append when it holds on the right part. -/
theorem any_append_right {α : Type} (l1 l2 : List α) (p : α → Bool)
    (h : l2.any p = true) : (l1 ++ l2).any p = true := by
  rw [List.any_append, h]
  simp

/-- C2: splitting a frontier (cover-free, no outgoing structure) node on a
literal condition creates exactly two target nodes carrying the condition
and its negation, returns the fresh ids condition-true first, and a second
split of the same node fails with `InvalidOperation`, as does splitting
any node that already has outgoing structure. -/
theorem split_node_spec (g : Graph) (x : Nat) (cond : String)
    (hx : g.hasNode x = true) : SplitNodeSpec g x cond := by
  constructor
  · intro hfr
    refine ⟨{ g with
        nodes := g.nodes ++
          [⟨g.nextId, g.nodePayload x⟩, ⟨g.nextId + 1, g.nodePayload x⟩],
        splits := g.splits ++
          [⟨x, [(g.nextId, .lit cond), (g.nextId + 1, .negated cond)]⟩],
        nextId := g.nextId + 2 }, ?_, by omega, rfl, rfl, ?_, ?_, ?_⟩
    · simp [Graph.splitNode, hx, hfr]
    · exact any_append_right _ _ _ (by simp)
    · exact any_append_right _ _ _ (by simp)
    · intro cond2
      have hnode2 : Graph.hasNode { g with
          nodes := g.nodes ++
            [⟨g.nextId, g.nodePayload x⟩, ⟨g.nextId + 1, g.nodePayload x⟩],
          splits := g.splits ++
            [⟨x, [(g.nextId, .lit cond), (g.nextId + 1, .negated cond)]⟩],
          nextId := g.nextId + 2 } x = true :=
        any_append_left _ _ _ hx
      have hout2 : Graph.hasOutgoing { g with
          nodes := g.nodes ++
            [⟨g.nextId, g.nodePayload x⟩, ⟨g.nextId + 1, g.nodePayload x⟩],
          splits := g.splits ++
            [⟨x, [(g.nextId, .lit cond), (g.nextId + 1, .negated cond)]⟩],
          nextId := g.nextId + 2 } x = true := by
        have hsp : (g.splits ++
            [Split.mk x [(g.nextId, .lit cond), (g.nextId + 1, .negated cond)]]).any
            (fun sp => sp.source == x) = true :=
          any_append_right _ _ _ (by simp)
        simp only [Graph.hasOutgoing, hsp]
        simp
      simp [Graph.splitNode, hnode2, hout2]
  · intro hout
    simp [Graph.splitNode, hx, hout]

/-- C2 witness: node 3 of the example graph is a frontier; after the
split, node 3 has outgoing structure. -/
theorem split_node_spec_witness : SplitNodeSpec egGraph 3 "b ==Int 0" :=
  split_node_spec egGraph 3 "b ==Int 0" (by decide)

/-- A step-monotone function dominates its value at zero. -/
theorem mono_from_zero (f : Nat → Nat) (hf : ∀ i, f i ≤ f (i + 1)) :
    ∀ n, f 0 ≤ f n
  | 0 => Nat.le_refl _
  | n + 1 => Nat.le_trans (mono_from_zero f hf n) (hf n)

/-- Telescoping sum of consecutive differences of a monotone function. -/
theorem sum_map_sub_range (f : Nat → Nat) (hf : ∀ i, f i ≤ f (i + 1))
    (n : Nat) :
    ((List.range n).map (fun i => f (i + 1) - f i)).sum = f n - f 0 := by
  induction n with
  | zero => simp
  | succ n ih =>
    rw [List.range_succ, List.map_append, List.sum_append, ih]
    have h1 : f 0 ≤ f n := mono_from_zero f hf n
    have h2 : f n ≤ f (n + 1) := hf n
    simp only [List.map_cons, List.map_nil, List.sum_cons, List.sum_nil]
    omega

/-- The section step counts sum to the original step count. -/
theorem sectionDepths_sum (d k : Nat) (hk : 0 < k) :
    (sectionDepths d k).sum = d := by
  have hmono : ∀ i, d * i / k ≤ d * (i + 1) / k := fun i =>
    Nat.div_le_div_right (Nat.mul_le_mul_left d (by omega))
  have h := sum_map_sub_range (fun i => d * i / k) hmono k
  simp only [sectionDepths]
  simpa [Nat.mul_div_left d hk] using h

/-- A sectioned chain has exactly `k` edges. -/
theorem chainEdges_length (s t nid d k : Nat) (rules : List String) :
    (chainEdges s t nid d k rules).length = k := by
  simp [chainEdges]

/-- The step counts along a sectioned chain are the section depths. -/
theorem chainEdges_map_depth (s t nid d k : Nat) (rules : List String) :
    (chainEdges s t nid d k rules).map Edge.depth = sectionDepths d k := by
  simp only [chainEdges, sectionDepths, List.map_map]
  rfl

/-- C3: section-edge with `sections = k ≥ 2` replaces one existing edge by
exactly `k` edges whose step counts sum to the original edge's step count;
`sections < 2` and a missing edge are rejected without mutation. -/
theorem section_edge_spec (g : Graph) (s t k : Nat) :
    SectionEdgeSpec g s t k := by
  refine ⟨?_, ?_, ?_⟩
  · intro hk
    simp [Graph.sectionEdge, hk]
  · intro hk hnone
    simp [Graph.sectionEdge, hk, hnone]
  · intro e hk he
    have hmem : e ∈ g.edges := List.mem_of_find?_eq_some he
    refine ⟨hmem, { g with
        nodes := g.nodes ++ (List.range (k - 1)).map
          (fun i => Node.mk (g.nextId + i) (g.nodePayload s)),
        edges := g.edges.erase e ++ chainEdges s t g.nextId e.depth k e.rules,
        nextId := g.nextId + (k - 1) }, ?_, rfl,
      chainEdges_length s t g.nextId e.depth k e.rules, ?_, ?_⟩
    · simp [Graph.sectionEdge, hk, he]
    · rw [chainEdges_map_depth]
      exact sectionDepths_sum e.depth k (by omega)
    · have hpos : 0 < g.edges.length := List.length_pos_of_mem hmem
      simp only [List.length_append,
        chainEdges_length s t g.nextId e.depth k e.rules,
        List.length_erase_of_mem hmem]
      omega

/-- C3 witness: sectioning the edge from node 1 to node 2 of the example
graph into three parts. -/
theorem section_edge_spec_witness : SectionEdgeSpec egGraph 1 2 3 :=
  section_edge_spec egGraph 1 2 3

/-- A list not containing an element reports `contains = false`. -/
theorem contains_eq_false_of_not_mem {a : Nat} {l : List Nat}
    (h : a ∉ l) : l.contains a = false := by
  cases hc : l.contains a with
  | false => rfl
  | true => exact absurd (List.elem_iff.mp hc) h

/-- `hasNode` agrees with membership in `nodeIds`. -/
theorem hasNode_iff_mem (g : Graph) (x : Nat) :
    g.hasNode x = true ↔ x ∈ g.nodeIds := by
  simp only [Graph.hasNode, List.any_eq_true, beq_iff_eq, Graph.nodeIds,
    List.mem_map]

/-- The saturation never loses the ids it started from. -/
theorem reachAux_mono (g : Graph) :
    ∀ (fuel : Nat) (acc : List Nat), acc ⊆ g.reachAux fuel acc
  | 0, acc => fun _ h => h
  | fuel + 1, acc => by
    simp only [Graph.reachAux]
    split
    · exact fun _ h => h
    · intro a ha
      exact reachAux_mono g fuel _ (List.mem_append_left _ ha)

/-- The saturation stays inside any successor-closed superset of its
start. -/
theorem reachAux_subset_of_closed (g : Graph) (s : List Nat)
    (hs : g.SuccClosed s) :
    ∀ (fuel : Nat) (acc : List Nat), acc ⊆ s → g.reachAux fuel acc ⊆ s
  | 0, _, hacc => hacc
  | fuel + 1, acc, hacc => by
    simp only [Graph.reachAux]
    split
    · exact hacc
    · refine reachAux_subset_of_closed g s hs fuel _ ?_
      intro a ha
      rcases List.mem_append.mp ha with h1 | h2
      · exact hacc h1
      · have h3 := List.mem_filter.mp (List.mem_dedup.mp h2)
        rcases List.mem_flatMap.mp h3.1 with ⟨z, hz, haz⟩
        exact hs z (hacc hz) a haz

/-- On a well-formed graph, successors are node ids. -/
theorem succsOf_mem_nodeIds (g : Graph) (hwf : g.WF) (z y : Nat)
    (hy : y ∈ g.succsOf z) : y ∈ g.nodeIds := by
  obtain ⟨hnd, hed, hsp, hcv⟩ := hwf
  simp only [Graph.succsOf] at hy
  rcases List.mem_append.mp hy with h12 | h3
  · rcases List.mem_append.mp h12 with h1 | h2
    · rcases List.mem_map.mp h1 with ⟨e, hef, rfl⟩
      exact (hed e (List.mem_of_mem_filter hef)).2
    · rcases List.mem_flatMap.mp h2 with ⟨sp, hspf, hysp⟩
      rcases List.mem_map.mp hysp with ⟨t, htm, rfl⟩
      exact (hsp sp (List.mem_of_mem_filter hspf)).2 t htm
  · rcases List.mem_map.mp h3 with ⟨c, hcf, rfl⟩
    exact (hcv c (List.mem_of_mem_filter hcf)).2

/-- With enough fuel — one unit per node beyond the ids already found —
the saturation reaches a successor-closed set.  Each expansion round adds
at least one id, all ids are node ids without duplicates, so the rounds
run out of new ids before the fuel runs out. -/
theorem reachAux_closed (g : Graph)
    (hsub : ∀ z y, y ∈ g.succsOf z → y ∈ g.nodeIds) :
    ∀ (fuel : Nat) (acc : List Nat), acc.Nodup →
      (∀ y ∈ acc, y ∈ g.nodeIds) →
      g.nodeIds.length < acc.length + fuel →
      g.SuccClosed (g.reachAux fuel acc)
  | 0, acc, hnd, hacc, hlen => by
    exfalso
    have h1 : acc.length = acc.toFinset.card :=
      (List.toFinset_card_of_nodup hnd).symm
    have h2 : acc.toFinset ⊆ g.nodeIds.toFinset := by
      intro a ha
      exact List.mem_toFinset.mpr (hacc a (List.mem_toFinset.mp ha))
    have h3 : acc.toFinset.card ≤ g.nodeIds.toFinset.card :=
      Finset.card_le_card h2
    have h4 : g.nodeIds.toFinset.card ≤ g.nodeIds.length :=
      List.toFinset_card_le _
    omega
  | fuel + 1, acc, hnd, hacc, hlen => by
    simp only [Graph.reachAux]
    split
    · rename_i hempty
      intro z hz y hy
      by_contra hyn
      have hyfil : y ∈ (acc.flatMap g.succsOf).filter
          (fun w => !acc.contains w) := by
        refine List.mem_filter.mpr ⟨List.mem_flatMap.mpr ⟨z, hz, hy⟩, ?_⟩
        simpa using hyn
      have hyd := List.mem_dedup.mpr hyfil
      rw [List.isEmpty_iff.mp hempty] at hyd
      exact absurd hyd (List.not_mem_nil y)
    · rename_i hempty
      refine reachAux_closed g hsub fuel _ ?_ ?_ ?_
      · refine List.Nodup.append hnd (List.nodup_dedup _) ?_
        intro a ha hna
        have h5 := List.mem_filter.mp (List.mem_dedup.mp hna)
        have h6 : acc.contains a = true := List.elem_iff.mpr ha
        rw [h6] at h5
        exact absurd h5.2 (by simp)
      · intro y hy
        rcases List.mem_append.mp hy with h1 | h2
        · exact hacc y h1
        · have h3 := List.mem_filter.mp (List.mem_dedup.mp h2)
          rcases List.mem_flatMap.mp h3.1 with ⟨z, _, hyz⟩
          exact hsub z y hyz
      · have hne : ((acc.flatMap g.succsOf).filter
            (fun w => !acc.contains w)).dedup ≠ [] := by
          intro h0
          rw [h0] at hempty
          simp at hempty
        have hpos := List.length_pos.mpr hne
        rw [List.length_append]
        omega

/-- An id of a surviving node is an id of the filtered node list. -/
theorem mem_nodeIds_filter (g : Graph) (r : List Nat) (a : Nat)
    (hid : a ∈ g.nodeIds) (ha : a ∉ r) :
    a ∈ (g.nodes.filter (fun n => !r.contains n.id)).map Node.id := by
  rcases List.mem_map.mp hid with ⟨n, hn, rfl⟩
  exact List.mem_map.mpr ⟨n, List.mem_filter.mpr
    ⟨hn, by simpa using ha⟩, rfl⟩

/-- C4: removing a non-root node of a well-formed graph deletes exactly
the node and its reachable successor subgraph — the least successor-closed
id set containing it — keeps every other node, and leaves no orphaned
edges; removing the root fails with `InvalidOperation` and no mutation. -/
theorem remove_node_spec (g : Graph) (x : Nat) (hwf : g.WF)
    (hx : x ∈ g.nodeIds) :
    (x ≠ g.root → RemoveNodeOk g x) ∧
    (x = g.root → g.removeNode x = .error .invalidOperation) := by
  have hnode : g.hasNode x = true := (hasNode_iff_mem g x).mpr hx
  constructor
  · intro hroot
    have hxin : x ∈ g.reachableFrom x :=
      reachAux_mono g g.nodes.length [x] (List.mem_singleton_self x)
    have hclosed : g.SuccClosed (g.reachableFrom x) := by
      refine reachAux_closed g (succsOf_mem_nodeIds g hwf) g.nodes.length [x]
        (List.nodup_singleton x) ?_ ?_
      · intro y hy
        rw [List.mem_singleton.mp hy]
        exact hx
      · have h1 : g.nodeIds.length = g.nodes.length := by
          simp [Graph.nodeIds]
        simp only [List.length_singleton]
        omega
    have hmin : ∀ s : List Nat, x ∈ s → g.SuccClosed s →
        ∀ y ∈ g.reachableFrom x, y ∈ s := by
      intro s hxs hs y hy
      refine reachAux_subset_of_closed g s hs g.nodes.length [x] ?_ hy
      intro a ha
      rw [List.mem_singleton.mp ha]
      exact hxs
    refine ⟨{ g with
        nodes := g.nodes.filter (fun n => !(g.reachableFrom x).contains n.id),
        edges := g.edges.filter (fun e =>
          !(g.reachableFrom x).contains e.source &&
          !(g.reachableFrom x).contains e.target),
        splits := g.splits.filter (fun sp =>
          !(g.reachableFrom x).contains sp.source &&
          sp.targets.all (fun t => !(g.reachableFrom x).contains t.1)),
        covers := g.covers.filter (fun c =>
          !(g.reachableFrom x).contains c.source &&
          !(g.reachableFrom x).contains c.target) },
      ?_, hxin, hclosed, hmin, rfl, ?_, ?_, rfl, rfl⟩
    · simp [Graph.removeNode, hnode, hroot]
    · intro n hn hnid
      exact List.mem_filter.mpr ⟨hn, by simpa using hnid⟩
    · intro e he
      have he2 := List.mem_filter.mp he
      have hb := he2.2
      simp only [Bool.and_eq_true] at hb
      have hsrc : e.source ∉ g.reachableFrom x := by
        intro hmem
        have h7 := hb.1
        have h8 : (g.reachableFrom x).contains e.source = true :=
          List.elem_iff.mpr hmem
        rw [h8] at h7
        simp at h7
      have htgt : e.target ∉ g.reachableFrom x := by
        intro hmem
        have h7 := hb.2
        have h8 : (g.reachableFrom x).contains e.target = true :=
          List.elem_iff.mpr hmem
        rw [h8] at h7
        simp at h7
      obtain ⟨_, hed, _, _⟩ := hwf
      exact ⟨mem_nodeIds_filter g _ e.source (hed e he2.1).1 hsrc,
        mem_nodeIds_filter g _ e.target (hed e he2.1).2 htgt⟩
  · intro hroot
    subst hroot
    simp [Graph.removeNode, hnode]

/-- C4 witness: removing non-root node 2 of the example graph. -/
theorem remove_node_spec_witness : RemoveNodeOk egGraph 2 :=
  (remove_node_spec egGraph 2 (by decide) (by decide)).1 (by decide)

end Kontrol
